import Mathlib

/-!
Verification of the feed normalization and drift-detection pipeline
(`massage-csv.ts`): a shallow embedding of the tabular codec, the row
transformer, the feed materializer and the snapshot differ, together with
theorems settling the specification claims.

JavaScript strings are modelled as lists of characters (`JStr`); JavaScript
numbers are modelled bit-exactly as IEEE-754 binary64 values (`JsNum`), with
`parseFloat`, multiplication (round to nearest, ties to even) and
`Number.prototype.toString` (shortest round-tripping decimal, ECMA-262
formatting rules) implemented over exact `Nat`/`Int` arithmetic.
-/

namespace MassageCsv

set_option maxRecDepth 100000
set_option maxHeartbeats 1000000

/-- Model of a JavaScript string: a list of UTF-16-ish characters. -/
abbrev JStr := List Char

/-- Decidable equality of `Except` values (needed to evaluate the
materializer's result on concrete inputs). -/
instance {e a : Type} [DecidableEq e] [DecidableEq a] : DecidableEq (Except e a) := fun x y =>
  match x, y with
  | .error e1, .error e2 =>
    if h : e1 = e2 then .isTrue (by rw [h])
    else .isFalse (by intro hc; cases hc; exact h rfl)
  | .error _, .ok _ => .isFalse (by intro hc; cases hc)
  | .ok _, .error _ => .isFalse (by intro hc; cases hc)
  | .ok a1, .ok a2 =>
    if h : a1 = a2 then .isTrue (by rw [h])
    else .isFalse (by intro hc; cases hc; exact h rfl)

/-! ## IEEE-754 binary64 model (JavaScript numbers) -/

/-- Model of a JavaScript number: NaN, a signed infinity, or a finite value
`(-1)^sign * m * 2^e` (`sign = true` means negative).  Finite values produced
by arithmetic are normalized (`2^52 ≤ m < 2^53`, or `e = -1074` for
subnormals, or `m = 0` for zero); literals may use any `(m, e)` pair denoting
the same real value. -/
inductive JsNum where
  | nan : JsNum
  | inf : Bool → JsNum
  | fin : Bool → Nat → Int → JsNum
deriving DecidableEq, Repr

/-- Fueled base-2 logarithm (floor); fuel `n` is always sufficient. -/
def log2F : Nat → Nat → Nat
  | 0, _ => 0
  | fuel+1, n => if n ≥ 2 then log2F fuel (n / 2) + 1 else 0

/-- Number of binary digits of `n` (0 for 0). -/
def bitLen (n : Nat) : Nat := if n = 0 then 0 else log2F n n + 1

/-- Round `n / d` to the nearest integer, ties to even (`d > 0`). -/
def divRound (n d : Nat) : Nat :=
  let q := n / d
  let r := n % d
  if 2 * r > d then q + 1
  else if 2 * r < d then q
  else if q % 2 = 1 then q + 1 else q

/-- Numerator and denominator of `num / den * 2 ^ (-e)` as a pair of `Nat`s. -/
def scaled2 (num den : Nat) (e : Int) : Nat × Nat :=
  (num * 2 ^ (-e).toNat, den * 2 ^ e.toNat)

/-- Adjust the binary exponent `e` until `⌊num / den / 2^e⌋` lies in
`[2^52, 2^53)`; the initial estimate is off by at most a couple of units, so
the fuel is never exhausted on reachable inputs. -/
def adjustE : Nat → Nat → Nat → Int → Int
  | 0, _, _, e => e
  | fuel+1, num, den, e =>
    let p := scaled2 num den e
    let q := p.1 / p.2
    if q < 2 ^ 52 then adjustE fuel num den (e - 1)
    else if q ≥ 2 ^ 53 then adjustE fuel num den (e + 1)
    else e

/-- Round the positive rational `num / den` to the nearest binary64 value
(ties to even), with subnormal underflow and overflow to infinity. -/
def roundPosRat (sign : Bool) (num den : Nat) : JsNum :=
  if num = 0 then .fin sign 0 0
  else
    let e1 := adjustE 64 num den ((bitLen num : Int) - (bitLen den : Int) - 53)
    let e2 := max e1 (-1074)
    let p := scaled2 num den e2
    let m1 := divRound p.1 p.2
    let me := if m1 = 2 ^ 53 then (2 ^ 52, e2 + 1) else (m1, e2)
    if me.2 > 971 then .inf sign
    else if me.1 = 0 then .fin sign 0 0
    else .fin sign me.1 me.2

/-- Character class trimmed by JavaScript string trimming and skipped by
`parseFloat` (ASCII whitespace; the full JS set also has exotic Unicode
spaces, irrelevant here). -/
def isJsSpace (c : Char) : Bool := c.isWhitespace

/-- Leading decimal digits of a string and the remaining suffix. -/
def takeDigits (s : JStr) : JStr × JStr :=
  (s.takeWhile Char.isDigit, s.dropWhile Char.isDigit)

/-- Numeric value of a digit string (most significant first). -/
def digitsToNat (s : JStr) : Nat :=
  s.foldl (fun a c => a * 10 + (c.toNat - '0'.toNat)) 0

/-- Model of JavaScript `parseFloat`: skip leading whitespace, read an
optional sign, then the longest prefix that is `Infinity` or a decimal
literal `digits [. digits] [e|E [+|-] digits]`; `NaN` when no digit is
found. -/
def jsParseFloat (s0 : JStr) : JsNum :=
  let s1 := s0.dropWhile isJsSpace
  let signRest : Bool × JStr :=
    match s1 with
    | '-' :: r => (true, r)
    | '+' :: r => (false, r)
    | _ => (false, s1)
  let sign := signRest.1
  let s2 := signRest.2
  if "Infinity".data.isPrefixOf s2 then .inf sign
  else
    let ip := takeDigits s2
    let fp : JStr × JStr :=
      match ip.2 with
      | '.' :: r => takeDigits r
      | _ => ([], ip.2)
    if ip.1 = [] ∧ fp.1 = [] then .nan
    else
      let edigits : Bool × JStr :=
        match fp.2 with
        | 'e' :: '-' :: r => (true, (takeDigits r).1)
        | 'e' :: '+' :: r => (false, (takeDigits r).1)
        | 'e' :: r => (false, (takeDigits r).1)
        | 'E' :: '-' :: r => (true, (takeDigits r).1)
        | 'E' :: '+' :: r => (false, (takeDigits r).1)
        | 'E' :: r => (false, (takeDigits r).1)
        | _ => (false, [])
      let expVal : Int :=
        if edigits.2 = [] then 0
        else if edigits.1 then -(digitsToNat edigits.2 : Int)
        else (digitsToNat edigits.2 : Int)
      let d := digitsToNat (ip.1 ++ fp.1)
      let e10 : Int := expVal - (fp.1.length : Int)
      if d = 0 then .fin sign 0 0
      else if 0 ≤ e10 then roundPosRat sign (d * 10 ^ e10.toNat) 1
      else roundPosRat sign d (10 ^ (-e10).toNat)

/-- IEEE-754 binary64 multiplication (round to nearest, ties to even), with
the JavaScript rules for NaN, infinities and signed zeros. -/
def jsMul : JsNum → JsNum → JsNum
  | .nan, _ => .nan
  | _, .nan => .nan
  | .inf s1, .inf s2 => .inf (xor s1 s2)
  | .inf s1, .fin s2 m _ => if m = 0 then .nan else .inf (xor s1 s2)
  | .fin s1 m _, .inf s2 => if m = 0 then .nan else .inf (xor s1 s2)
  | .fin s1 m1 e1, .fin s2 m2 e2 =>
    let s := xor s1 s2
    if m1 = 0 ∨ m2 = 0 then .fin s 0 0
    else
      let e := e1 + e2
      roundPosRat s (m1 * m2 * 2 ^ e.toNat) (2 ^ (-e).toNat)

/-- Numerator and denominator of `10 ^ n` for an integer `n`. -/
def pow10ND (n : Int) : Nat × Nat :=
  if 0 ≤ n then (10 ^ n.toNat, 1) else (1, 10 ^ (-n).toNat)

/-- Whether `numX / denX < 10 ^ n` (exact rational comparison). -/
def ratLtPow10 (numX denX : Nat) (n : Int) : Bool :=
  let p := pow10ND n
  numX * p.2 < p.1 * denX

/-- Adjust `n` until `10^(n-1) ≤ numX/denX < 10^n`. -/
def decExpAdjust : Nat → Nat → Nat → Int → Int
  | 0, _, _, n => n
  | fuel+1, numX, denX, n =>
    if ¬ ratLtPow10 numX denX n then decExpAdjust fuel numX denX (n + 1)
    else if ratLtPow10 numX denX (n - 1) then decExpAdjust fuel numX denX (n - 1)
    else n

/-- Decimal position `n` of the positive rational `numX/denX`: the unique
integer with `10^(n-1) ≤ numX/denX < 10^n`. -/
def decExp (numX denX : Nat) : Int :=
  let l2 : Int := (bitLen numX : Int) - (bitLen denX : Int)
  decExpAdjust 80 numX denX (l2 * 30103 / 100000 + 1)

/-- Whether the decimal `s * 10 ^ nk` rounds (to nearest) back to the
normalized positive double `xN`. -/
def candRT (xN : JsNum) (s : Nat) (nk : Int) : Bool :=
  if s = 0 then false
  else
    let p := pow10ND nk
    decide (roundPosRat false (s * p.1) p.2 = xN)

/-- Renormalize the digit value when rounding up overflowed to `10 ^ k`
(the value is then exactly `10 ^ n`, printed with the single digit 1). -/
def fixTen (s : Nat) (n : Int) (k : Nat) : Nat × Int :=
  if s = 10 ^ k then (1, n + 1) else (s, n)

/-- Search, for `k = 1, 2, ...`, for the shortest `k`-digit decimal
`s * 10^(n-k)` that rounds back to `xN`, preferring the candidate closest to
the exact value and breaking ties towards an even digit value — the ECMA-262
`Number::toString` digit-selection rule. -/
def pickShort : Nat → JsNum → Nat → Nat → Int → Nat → Nat × Int
  | 0, _, _, _, n, _ => (0, n)
  | fuel+1, xN, numX, denX, n, k =>
    let kn : Int := (k : Int) - n
    let p := pow10ND kn
    let nS := numX * p.1
    let dS := denX * p.2
    let sf := nS / dS
    let r := nS % dS
    let okF := candRT xN sf (n - (k : Int))
    let okC := candRT xN (sf + 1) (n - (k : Int))
    if okF ∧ okC then
      if 2 * r < dS then (sf, n)
      else if 2 * r > dS then fixTen (sf + 1) n k
      else if sf % 2 = 0 then (sf, n) else fixTen (sf + 1) n k
    else if okF then (sf, n)
    else if okC then fixTen (sf + 1) n k
    else pickShort fuel xN numX denX n (k + 1)

/-- Lay out digit value `s` at decimal position `n` following the ECMA-262
`Number::toString` formatting cases (plain, fractional, leading zeros or
exponent notation). -/
def formatDecimal (s : Nat) (n : Int) : JStr :=
  let ds := Nat.toDigits 10 s
  let k : Int := (ds.length : Int)
  if k ≤ n ∧ n ≤ 21 then ds ++ List.replicate (n - k).toNat '0'
  else if 0 < n ∧ n ≤ 21 then ds.take n.toNat ++ '.' :: ds.drop n.toNat
  else if -6 < n ∧ n ≤ 0 then '0' :: '.' :: (List.replicate (-n).toNat '0' ++ ds)
  else
    let expo := n - 1
    let mant := match ds with
      | [d] => [d]
      | d :: rest => d :: '.' :: rest
      | [] => ds
    mant ++ 'e' :: (if 0 ≤ expo then '+' else '-') :: Nat.toDigits 10 expo.natAbs

/-- Model of JavaScript `Number.prototype.toString` (radix 10). -/
def jsToString : JsNum → JStr
  | .nan => "NaN".data
  | .inf false => "Infinity".data
  | .inf true => "-Infinity".data
  | .fin sign m e =>
    if m = 0 then "0".data
    else
      let pre : JStr := if sign then ['-'] else []
      let numX := m * 2 ^ e.toNat
      let denX := 2 ^ (-e).toNat
      let xN := roundPosRat false numX denX
      let n := decExp numX denX
      let sn := pickShort 20 xN numX denX n 1
      pre ++ formatDecimal sn.1 sn.2

/-! ## String helpers (JavaScript semantics) -/

/-- Model of JavaScript `String.prototype.trim`: drop whitespace at both
ends. -/
def jsTrim (s : JStr) : JStr :=
  ((s.dropWhile isJsSpace).reverse.dropWhile isJsSpace).reverse

/-- Model of JavaScript `String.prototype.split` with a single-character
separator: `jsSplit sep "" = [""]`, separators produce empty pieces. -/
def jsSplit (sep : Char) : JStr → List JStr
  | [] => [[]]
  | c :: rest =>
    let r := jsSplit sep rest
    if c = sep then [] :: r
    else (c :: r.headD []) :: r.tail

/-- Model of JavaScript `Array.prototype.join` with a one-character
separator. -/
def joinWith (sep : Char) : List JStr → JStr
  | [] => []
  | [x] => x
  | x :: y :: rest => x ++ sep :: joinWith sep (y :: rest)

/-- First index of `x` in `l`, if present. -/
def idxOf? (x : JStr) : List JStr → Option Nat
  | [] => none
  | y :: r => if y = x then some 0 else (idxOf? x r).map (· + 1)

/-- Model of JavaScript `Array.prototype.indexOf`: first index, `-1` when
absent. -/
def jsIndexOf (l : List JStr) (x : JStr) : Int :=
  match idxOf? x l with
  | some i => (i : Int)
  | none => -1

/-- Model of JavaScript array indexing `values[i]`: `none` stands for
`undefined` (negative or out-of-range index). -/
def jsAt (l : List JStr) (i : Int) : Option JStr :=
  if i < 0 then none else l.get? i.toNat

/-- Model of `v || dflt` applied to an optional string: `undefined` and the
empty string are falsy. -/
def orDefault (v : Option JStr) (dflt : JStr) : JStr :=
  match v with
  | none => dflt
  | some s => if s = [] then dflt else s

/-! ## Tabular codec (`parseCsvLine` / `toCsvLine`) -/

/-- Scanner of `parseCsvLine`: walks the remaining characters carrying the
current field and the quote flag, exactly as the source loop does (each `"`
toggles the flag; `,` outside quotes ends a field; fields are trimmed). -/
def parseCsvAux : JStr → JStr → Bool → List JStr
  | [], current, _ => [jsTrim current]
  | c :: rest, current, inQuotes =>
    if c = '"' then parseCsvAux rest current (!inQuotes)
    else if c = ',' ∧ inQuotes = false then jsTrim current :: parseCsvAux rest [] false
    else parseCsvAux rest (current ++ [c]) inQuotes

/-- Converts a CSV line to an array of values, handling quoted values the way
the source does. -/
def parseCsvLine (line : JStr) : List JStr := parseCsvAux line [] false

/-- Double every `"` character (the `value.replace(/"/g, '""')` step). -/
def escapeQuotes : JStr → JStr
  | [] => []
  | c :: r => if c = '"' then '"' :: '"' :: escapeQuotes r else c :: escapeQuotes r

/-- Whether a value must be quoted: it contains a comma, quote or newline. -/
def needsQuote (v : JStr) : Bool := v.contains ',' || v.contains '"' || v.contains '\n'

/-- Encoding of one field of `toCsvLine`. -/
def encodeField (v : JStr) : JStr :=
  if needsQuote v then '"' :: (escapeQuotes v ++ ['"']) else v

/-- Converts an array of values to a CSV line, quoting values that contain
commas, quotes or newlines. -/
def toCsvLine (values : List JStr) : JStr := joinWith ',' (values.map encodeField)

/-- Encoding of a sequence of rows: one CSV line per row, joined by
newlines. -/
def encodeRows (rows : List (List JStr)) : JStr := joinWith '\n' (rows.map toCsvLine)

/-- Decoding of a text: `parseCsvLine` applied to every physical line. -/
def decodeRows (text : JStr) : List (List JStr) := (jsSplit '\n' text).map parseCsvLine

/-! ## Row transformer -/

/-- Raw record with the six lower-case input fields. -/
structure InputRow where
  discussionid : JStr
  discussiontype : JStr
  entityid : JStr
  entitytype : JStr
  discussioncreatedat : JStr
  score : JStr
deriving DecidableEq, Repr

/-- Normalized record with the six camelCase output fields. -/
structure OutputRow where
  discussionId : JStr
  discussionType : JStr
  entityId : JStr
  entityType : JStr
  discussionCreatedAt : JStr
  score : JStr
deriving DecidableEq, Repr

/-- Score rescaling: parse the raw string as a JavaScript number, multiply by
the scale factor, serialize back with `Number.prototype.toString`. -/
def scaledScore (scale : JsNum) (s : JStr) : JStr :=
  jsToString (jsMul (jsParseFloat s) scale)

/-- Scale factor hard-wired in the source (`* 10000`). -/
def scaleFactor10000 : JsNum := .fin false 10000 0

/-- Transforms the input row according to the requirements: rename fields,
rewrite `entitytype` `"update"` to `"workspace"`, scale the score. -/
def transformRow (inputRow : InputRow) : OutputRow :=
  { discussionId := inputRow.discussionid
    discussionType := inputRow.discussiontype
    entityId := inputRow.entityid
    entityType := if inputRow.entitytype = "update".data then "workspace".data
                  else inputRow.entitytype
    discussionCreatedAt := inputRow.discussioncreatedat
    score := scaledScore scaleFactor10000 inputRow.score }

/-! ## Feed materializer (`processCsvFile`) -/

/-- Resolution of one raw field: `values[inputHeaders.indexOf(name)] || dflt`. -/
def lookupField (inputHeaders values : List JStr) (name dflt : JStr) : JStr :=
  orDefault (jsAt values (jsIndexOf inputHeaders name)) dflt

/-- Builds the `InputRow` object of the materializer loop: every field is
resolved by name via the decoded header, missing or empty fields default to
`''` (`'0'` for `score`). -/
def buildInputRow (inputHeaders values : List JStr) : InputRow :=
  { discussionid := lookupField inputHeaders values "discussionid".data []
    discussiontype := lookupField inputHeaders values "discussiontype".data []
    entityid := lookupField inputHeaders values "entityid".data []
    entitytype := lookupField inputHeaders values "entitytype".data []
    discussioncreatedat := lookupField inputHeaders values "discussioncreatedat".data []
    score := lookupField inputHeaders values "score".data ['0'] }

/-- Field values of an output row, in the fixed output order. -/
def outputValues (o : OutputRow) : List JStr :=
  [o.discussionId, o.discussionType, o.entityId, o.entityType, o.discussionCreatedAt, o.score]

/-- Output fields of one decoded data row: build the input row by header
lookup, transform it, lay the result out in output order. -/
def rowOutput (inputHeaders values : List JStr) : List JStr :=
  outputValues (transformRow (buildInputRow inputHeaders values))

/-- Processing of one raw data line of the materializer loop: trim, skip if
empty, else parse and transform. -/
def processDataLine (inputHeaders : List JStr) (rawLine : JStr) : Option JStr :=
  let line := jsTrim rawLine
  if line = [] then none
  else some (toCsvLine (rowOutput inputHeaders (parseCsvLine line)))

/-- Output header names (camelCase), as in the source. -/
def outputHeaders : List JStr :=
  ["discussionId".data, "discussionType".data, "entityId".data, "entityType".data,
   "discussionCreatedAt".data, "score".data]

/-- Content-level model of `processCsvFile`: from the text of the input file
to either the fatal `Input file is empty` error or the full text written to
the output file.  (Console output and the header-mismatch warning are pure
logging and are not modelled.) -/
def processCsvFile (fileContent : JStr) : Except JStr JStr :=
  let lines := jsSplit '\n' (jsTrim fileContent)
  if lines.length = 0 then .error "Input file is empty".data
  else
    let inputHeaders := parseCsvLine (lines.headD [])
    let outputLines := toCsvLine outputHeaders ::
      (lines.drop 1).filterMap (processDataLine inputHeaders)
    .ok (joinWith '\n' outputLines)

/-! ## Snapshot differ -/

/-- Insertion into a JavaScript `Set` modelled as a duplicate-free list in
insertion order. -/
def insertSet (s : List JStr) (x : JStr) : List JStr :=
  if x ∈ s then s else s ++ [x]

/-- Reads a CSV text and extracts the set of `discussionId` values, as the
source does: empty when there is at most a header or the `discussionId`
column is missing; rows shorter than the column index are skipped. -/
def extractDiscussionIds (content : JStr) : List JStr :=
  let lines := jsSplit '\n' (jsTrim content)
  if lines.length ≤ 1 then []
  else
    let headers := parseCsvLine (lines.headD [])
    let discussionIdIndex := jsIndexOf headers "discussionId".data
    if discussionIdIndex = -1 then []
    else
      (lines.drop 1).foldl
        (fun acc rawLine =>
          let line := jsTrim rawLine
          if line = [] then acc
          else
            let values := parseCsvLine line
            if (values.length : Int) > discussionIdIndex then
              insertSet acc (values.getD discussionIdIndex.toNat [])
            else acc)
        []

/-- Model of `path.basename(p, '.csv')`: strip a trailing `.csv`. -/
def basenameStem (name : JStr) : JStr :=
  if ".csv".data.isSuffixOf name then name.take (name.length - 4) else name

/-- Removed ids of the diff step: ids of the previous snapshot that are
absent from the current one, in previous-snapshot insertion order. -/
def removedIdsOf (currentContent previousContent : JStr) : List JStr :=
  (extractDiscussionIds previousContent).filter
    (fun i => !(decide (i ∈ extractDiscussionIds currentContent)))

/-- Content-level model of `compareFeedsAndFindRemoved`: `none` when no
report file is written (no removed ids), otherwise the report file name and
its content. -/
def compareFeedsAndFindRemoved (currentContent previousContent currentFileName : JStr) :
    Option (JStr × JStr) :=
  let removedIds := removedIdsOf currentContent previousContent
  if removedIds = [] then none
  else
    let reportName := basenameStem currentFileName ++ "-removed-entries.csv".data
    some (reportName, joinWith '\n' ("discussionId".data :: removedIds))

/-! ## Previous-snapshot discovery (`findPreviousFeedFile`) -/

/-- Whether a file name fully matches `^prod_feed_\d{8}_\d{6}\.csv$`. -/
def isFeedFileName (name : JStr) : Bool :=
  name.length = 29 &&
  "prod_feed_".data.isPrefixOf name &&
  ((name.drop 10).take 8).all Char.isDigit &&
  name.getD 18 ' ' = '_' &&
  ((name.drop 19).take 6).all Char.isDigit &&
  ".csv".data.isSuffixOf name

/-- Whether the pattern `prod_feed_\d{8}_\d{6}\.csv` matches at the start of
the string. -/
def feedPatHere (s : JStr) : Bool := isFeedFileName (s.take 29)

/-- Whether the unanchored regex `prod_feed_\d{8}_\d{6}\.csv` matches
somewhere in the string (the current-file check of the source). -/
def containsFeedPattern : JStr → Bool
  | [] => false
  | s@(_ :: rest) => feedPatHere s || containsFeedPattern rest

/-- Boolean code-unit lexicographic comparison of JavaScript strings, the
order used by the default `Array.prototype.sort`. -/
def lexLeB : JStr → JStr → Bool
  | [], _ => true
  | _ :: _, [] => false
  | a :: as, b :: bs => if a < b then true else if b < a then false else lexLeB as bs

/-- Propositional form of `lexLeB`. -/
def lexLe (a b : JStr) : Prop := lexLeB a b = true

instance : DecidableRel lexLe := fun a b => inferInstanceAs (Decidable (lexLeB a b = true))

/-- Finds the most recent feed file before the current one: directory-listing
level model of `findPreviousFeedFile` (the directory content is passed as a
list of file names; `ascending sort` then `reverse` then first element).
JavaScript `sort` is modelled by insertion sort with the same total order,
which produces the identical sorted sequence. -/
def findPreviousFeedFile (dirFiles : List JStr) (currentFileName : JStr) : Option JStr :=
  if ¬ containsFeedPattern currentFileName then none
  else
    let feedFiles :=
      (List.insertionSort lexLe
        (dirFiles.filter (fun f => isFeedFileName f && !(decide (f = currentFileName))))).reverse
    feedFiles.head?

/-! ## Permutations of header columns (for the field-order claims) -/

/-- Apply an index permutation: entry `i` of the result is entry `p i` of
`l` (missing positions give the empty string). -/
def applyPerm (p : List Nat) (l : List JStr) : List JStr :=
  p.map (fun i => l.getD i [])

/-- The six expected raw header names. -/
def expectedHeaders : List JStr :=
  ["discussionid".data, "discussiontype".data, "entityid".data, "entitytype".data,
   "discussioncreatedat".data, "score".data]

/-! ## Claim C1 (code bug): blank input does not fail, it writes a
header-only artifact -/

/-- C1: contrary to the claim, a blank (after trimming) input file does not
fail with an empty-input error: in JavaScript `''.split('\n')` is `['']`, so
the `lines.length === 0` guard of the source is dead code and the
materializer succeeds, writing an artifact that consists of the camelCase
header line alone. -/
theorem claim1_blank_input_writes_header :
    ∀ fileContent : JStr, jsTrim fileContent = [] →
      processCsvFile fileContent =
        .ok "discussionId,discussionType,entityId,entityType,discussionCreatedAt,score".data := by
  intro s h
  unfold processCsvFile
  rw [h]
  decide

/-- C1 witness: the concrete whitespace-only input file. -/
theorem claim1_witness :
    processCsvFile "  \n ".data =
      .ok "discussionId,discussionType,entityId,entityType,discussionCreatedAt,score".data :=
  claim1_blank_input_writes_header "  \n ".data (by decide)

/-! ## Claim C2: score scaling -/

/-- C2: the row transformer parses the raw score, multiplies it by the scale
factor with IEEE-754 binary64 arithmetic and re-serializes it: raw score
"0.952579225657124" yields "95.2579225657124" at scale factor 100 and
"9525.79225657124" at scale factor 10000, and the transformer's score field
is exactly the scale-10000 rescaling of the raw score. -/
theorem claim2_score_scaling :
    scaledScore (JsNum.fin false 100 0) "0.952579225657124".data = "95.2579225657124".data
    ∧ scaledScore (JsNum.fin false 10000 0) "0.952579225657124".data = "9525.79225657124".data
    ∧ ∀ r : InputRow, (transformRow r).score = scaledScore scaleFactor10000 r.score :=
  ⟨by decide!, by decide!, fun _ => rfl⟩

/-! ## Claim C4 (corrected): entityType rewrite is exact-match -/

/-- C4 counterexample: the claimed equivalence "output is workspace iff raw
is exactly update" fails on a record whose raw entitytype is already
"workspace". -/
theorem claim4_counterexample :
    ¬ ((transformRow ⟨[], [], [], "workspace".data, [], ['0']⟩).entityType = "workspace".data
        ↔ ("workspace".data : JStr) = "update".data) := by
  decide

/-- C4 (amended): the rewrite is an exact string-equality test: the output
entityType is "workspace" exactly when the raw value is "update" or already
"workspace", and every raw value other than "update" (in particular
"Update", "updated" and " update") passes through unchanged. -/
theorem claim4_entitytype_exact :
    ∀ r : InputRow,
      ((transformRow r).entityType = "workspace".data ↔
        (r.entitytype = "update".data ∨ r.entitytype = "workspace".data))
      ∧ (r.entitytype ≠ "update".data → (transformRow r).entityType = r.entitytype) := by
  intro r
  by_cases h : r.entitytype = "update".data
  · refine ⟨?_, fun hne => absurd h hne⟩
    simp [transformRow, h]
  · have he : (transformRow r).entityType = r.entitytype := by
      simp [transformRow, h]
    refine ⟨?_, fun _ => he⟩
    rw [he]
    simp [h]

/-- C4 witness: "Update" (capitalized) passes through unchanged. -/
theorem claim4_witness :
    (transformRow ⟨[], [], [], "Update".data, [], ['0']⟩).entityType = "Update".data :=
  (claim4_entitytype_exact ⟨[], [], [], "Update".data, [], ['0']⟩).2 (by decide)

/-! ## Claim C9: the row transformer is total -/

/-- C9: the row transformer is a total function: every raw record, with
arbitrary string fields, is mapped to a normalized record, and when the
score does not parse as a number (parseFloat yields NaN) the output score is
the literal string "NaN". -/
theorem claim9_transform_total :
    ∀ r : InputRow, ∃ o : OutputRow, transformRow r = o ∧
      (jsParseFloat r.score = JsNum.nan → o.score = "NaN".data) :=
  fun r => ⟨transformRow r, rfl, fun h => by
    show scaledScore scaleFactor10000 r.score = "NaN".data
    unfold scaledScore
    rw [h]
    rfl⟩

/-- C9 witness: the concrete record with empty fields and unparseable score
"abc" produces the literal score "NaN". -/
theorem claim9_witness :
    (transformRow ⟨[], [], [], [], [], "abc".data⟩).score = "NaN".data := by
  obtain ⟨o, ho, hnan⟩ := claim9_transform_total ⟨[], [], [], [], [], "abc".data⟩
  rw [ho]
  exact hnan (by decide)

/-! ## Claim C10: missing or empty score defaults to "0" -/

/-- C10: when the score field of a data row is missing (header lookup fails
or the row is too short) or resolves to the empty string, the default "0" is
substituted before parsing and the normalized score is the string "0", never
"NaN"; every other missing field defaults to the empty string. -/
theorem claim10_score_default :
    ∀ inputHeaders values : List JStr,
      ((jsAt values (jsIndexOf inputHeaders "score".data) = none ∨
          jsAt values (jsIndexOf inputHeaders "score".data) = some []) →
        (transformRow (buildInputRow inputHeaders values)).score = "0".data)
      ∧ (jsAt values (jsIndexOf inputHeaders "discussionid".data) = none →
          (buildInputRow inputHeaders values).discussionid = [])
      ∧ (jsAt values (jsIndexOf inputHeaders "discussiontype".data) = none →
          (buildInputRow inputHeaders values).discussiontype = [])
      ∧ (jsAt values (jsIndexOf inputHeaders "entityid".data) = none →
          (buildInputRow inputHeaders values).entityid = [])
      ∧ (jsAt values (jsIndexOf inputHeaders "entitytype".data) = none →
          (buildInputRow inputHeaders values).entitytype = [])
      ∧ (jsAt values (jsIndexOf inputHeaders "discussioncreatedat".data) = none →
          (buildInputRow inputHeaders values).discussioncreatedat = []) := by
  intro hs vs
  refine ⟨?_, ?_, ?_, ?_, ?_, ?_⟩
  · intro h
    have hscore : (buildInputRow hs vs).score = ['0'] := by
      show orDefault (jsAt vs (jsIndexOf hs "score".data)) ['0'] = ['0']
      rcases h with h | h <;> rw [h] <;> rfl
    have : (transformRow (buildInputRow hs vs)).score
        = scaledScore scaleFactor10000 (buildInputRow hs vs).score := rfl
    rw [this, hscore]
    decide
  · intro h
    show orDefault (jsAt vs (jsIndexOf hs "discussionid".data)) [] = []
    rw [h]
    rfl
  · intro h
    show orDefault (jsAt vs (jsIndexOf hs "discussiontype".data)) [] = []
    rw [h]
    rfl
  · intro h
    show orDefault (jsAt vs (jsIndexOf hs "entityid".data)) [] = []
    rw [h]
    rfl
  · intro h
    show orDefault (jsAt vs (jsIndexOf hs "entitytype".data)) [] = []
    rw [h]
    rfl
  · intro h
    show orDefault (jsAt vs (jsIndexOf hs "discussioncreatedat".data)) [] = []
    rw [h]
    rfl

/-- C10 witness: with an empty header and an empty row, every lookup misses;
the score comes out as "0" and discussionid as the empty string. -/
theorem claim10_witness :
    (transformRow (buildInputRow [] [])).score = "0".data
    ∧ (buildInputRow [] []).discussionid = [] :=
  ⟨(claim10_score_default [] []).1 (Or.inl (by decide)),
   (claim10_score_default [] []).2.1 (by decide)⟩

/-! ## Claims C5 and C8: the snapshot diff -/

/-- Inserting into the modelled JavaScript `Set` preserves freedom from
duplicates. -/
theorem insertSet_nodup {s : List JStr} (x : JStr) (hs : s.Nodup) : (insertSet s x).Nodup := by
  unfold insertSet
  split
  · exact hs
  · next hx =>
      refine List.Nodup.append hs (List.nodup_singleton x) ?_
      intro a ha hb
      rw [List.mem_singleton] at hb
      subst hb
      exact hx ha

/-- The fold of `extractDiscussionIds` preserves freedom from duplicates. -/
theorem extract_fold_nodup (discussionIdIndex : Int) :
    ∀ (lines : List JStr) (acc : List JStr), acc.Nodup →
      (lines.foldl
        (fun acc rawLine =>
          let line := jsTrim rawLine
          if line = [] then acc
          else
            let values := parseCsvLine line
            if (values.length : Int) > discussionIdIndex then
              insertSet acc (values.getD discussionIdIndex.toNat [])
            else acc)
        acc).Nodup := by
  intro lines
  induction lines with
  | nil => intro acc h; exact h
  | cons l rest ih =>
    intro acc h
    simp only [List.foldl_cons]
    apply ih
    dsimp only
    split
    · exact h
    · split
      · exact insertSet_nodup _ h
      · exact h

/-- The id set extracted from a snapshot is duplicate-free (it models a
JavaScript `Set`). -/
theorem extractDiscussionIds_nodup (content : JStr) : (extractDiscussionIds content).Nodup := by
  unfold extractDiscussionIds
  dsimp only
  split
  · exact List.nodup_nil
  · split
    · exact List.nodup_nil
    · exact extract_fold_nodup _ _ _ List.nodup_nil

/-- C5: the diff computes exactly the one-directional set difference
previousKeys minus currentKeys: an id is reported iff it is in the previous
snapshot and not in the current one (additions are never reported); the
report, written only when the difference is non-empty, is named
&lt;current-stem&gt;-removed-entries.csv and consists of the header
discussionId followed by one row per removed id; on the spec's example
(previous ids 1,2,3, current ids 1,3) the persisted report contains exactly
the id 2. -/
theorem claim5_diff_removed :
    (∀ currentContent previousContent currentFileName : JStr,
      (∀ i : JStr, i ∈ removedIdsOf currentContent previousContent ↔
        (i ∈ extractDiscussionIds previousContent ∧ i ∉ extractDiscussionIds currentContent))
      ∧ (removedIdsOf currentContent previousContent).Nodup
      ∧ (removedIdsOf currentContent previousContent ≠ [] →
          compareFeedsAndFindRemoved currentContent previousContent currentFileName =
            some (basenameStem currentFileName ++ "-removed-entries.csv".data,
              joinWith '\n' ("discussionId".data :: removedIdsOf currentContent previousContent)))
      ∧ (removedIdsOf currentContent previousContent = [] →
          compareFeedsAndFindRemoved currentContent previousContent currentFileName = none))
    ∧ compareFeedsAndFindRemoved "discussionId\n1\n3".data "discussionId\n1\n2\n3".data
        "prod_feed_20250102_000000.csv".data =
        some ("prod_feed_20250102_000000-removed-entries.csv".data, "discussionId\n2".data) := by
  constructor
  · intro cur prev name
    refine ⟨?_, ?_, ?_, ?_⟩
    · intro i
      unfold removedIdsOf
      simp [List.mem_filter]
    · exact (extractDiscussionIds_nodup prev).filter _
    · intro h
      unfold compareFeedsAndFindRemoved
      rw [if_neg h]
    · intro h
      unfold compareFeedsAndFindRemoved
      rw [if_pos h]
  · decide!

/-- C5 witness: the spec's concrete example, obtained by applying the
general theorem (the removed set {2} is non-empty, so the report is
written). -/
theorem claim5_witness :
    compareFeedsAndFindRemoved "discussionId\n1\n3".data "discussionId\n1\n2\n3".data
      "current.csv".data =
      some ("current-removed-entries.csv".data,
        joinWith '\n' ("discussionId".data ::
          removedIdsOf "discussionId\n1\n3".data "discussionId\n1\n2\n3".data)) := by
  have h := (claim5_diff_removed.1 "discussionId\n1\n3".data "discussionId\n1\n2\n3".data
    "current.csv".data).2.2.1 (by decide!)
  exact h.trans (by decide!)

/-- C8: when the two snapshots have equal key sets, the diff finds no
removed ids and writes no report file. -/
theorem claim8_equal_sets_no_write :
    ∀ currentContent previousContent currentFileName : JStr,
      (∀ i ∈ extractDiscussionIds previousContent, i ∈ extractDiscussionIds currentContent) →
      (∀ i ∈ extractDiscussionIds currentContent, i ∈ extractDiscussionIds previousContent) →
      compareFeedsAndFindRemoved currentContent previousContent currentFileName = none := by
  intro cur prev name hpc _
  unfold compareFeedsAndFindRemoved
  have hnil : removedIdsOf cur prev = [] := by
    unfold removedIdsOf
    rw [List.filter_eq_nil_iff]
    intro a ha
    simp [hpc a ha]
  rw [if_pos hnil]

/-- C8 witness: two snapshots with the identical key set {1}. -/
theorem claim8_witness :
    compareFeedsAndFindRemoved "discussionId\n1".data "discussionId\n1".data "a.csv".data = none :=
  claim8_equal_sets_no_write "discussionId\n1".data "discussionId\n1".data "a.csv".data
    (by decide!) (by decide!)

/-! ## Claim C7: previous-snapshot discovery returns the greatest other
matching file -/

/-- The comparison `lexLeB` is reflexive. -/
theorem lexLeB_refl : ∀ a : JStr, lexLeB a a = true := by
  intro a
  induction a with
  | nil => rfl
  | cons x xs ih => simp [lexLeB, lt_irrefl, ih]

/-- The comparison `lexLeB` is total. -/
theorem lexLeB_total : ∀ a b : JStr, lexLeB a b = true ∨ lexLeB b a = true := by
  intro a
  induction a with
  | nil => intro b; left; rfl
  | cons x xs ih =>
    intro b
    cases b with
    | nil => right; rfl
    | cons y ys =>
      by_cases h1 : x < y
      · left; simp [lexLeB, h1]
      · by_cases h2 : y < x
        · right; simp [lexLeB, h2]
        · rcases ih ys with h | h
          · left; simp [lexLeB, h1, h2, h]
          · right; simp [lexLeB, h1, h2, h]

/-- The comparison `lexLeB` is transitive. -/
theorem lexLeB_trans :
    ∀ a b c : JStr, lexLeB a b = true → lexLeB b c = true → lexLeB a c = true := by
  intro a
  induction a with
  | nil => intro b c _ _; rfl
  | cons x xs ih =>
    intro b c hab hbc
    cases b with
    | nil => simp [lexLeB] at hab
    | cons y ys =>
      cases c with
      | nil => simp [lexLeB] at hbc
      | cons z zs =>
        simp only [lexLeB] at hab hbc ⊢
        by_cases hxy : x < y
        · by_cases hyz : y < z
          · simp [lt_trans hxy hyz]
          · by_cases hzy : z < y
            · rw [if_neg hyz, if_pos hzy] at hbc
              exact absurd hbc (by simp)
            · have hy : y = z := le_antisymm (not_lt.mp hzy) (not_lt.mp hyz)
              subst hy
              simp [hxy]
        · by_cases hyx : y < x
          · rw [if_neg hxy, if_pos hyx] at hab
            exact absurd hab (by simp)
          · have hx : x = y := le_antisymm (not_lt.mp hyx) (not_lt.mp hxy)
            subst hx
            rw [if_neg hxy, if_neg hyx] at hab
            by_cases hyz : x < z
            · simp [hyz]
            · by_cases hzy : z < x
              · rw [if_neg hyz, if_pos hzy] at hbc
                exact absurd hbc (by simp)
              · have hy : x = z := le_antisymm (not_lt.mp hzy) (not_lt.mp hyz)
                subst hy
                rw [if_neg hyz] at hbc ⊢
                rw [if_neg hzy] at hbc ⊢
                exact ih ys zs hab hbc

instance : IsTotal JStr lexLe :=
  ⟨fun a b => lexLeB_total a b⟩

instance : IsTrans JStr lexLe :=
  ⟨fun a b c hab hbc => lexLeB_trans a b c hab hbc⟩

/-- Every member of a `lexLe`-sorted list is `lexLe` its last element. -/
theorem sorted_lexLe_getLast? :
    ∀ l : List JStr, List.Sorted lexLe l → ∀ x ∈ l, ∀ y, l.getLast? = some y → lexLe x y := by
  intro l
  induction l with
  | nil => intro _ x hx; exact absurd hx (List.not_mem_nil x)
  | cons a t ih =>
    intro hs x hx y hy
    cases t with
    | nil =>
      rw [List.mem_singleton] at hx
      subst hx
      cases hy
      exact lexLeB_refl x
    | cons b t2 =>
      have hy' : (b :: t2).getLast? = some y := by
        rw [← hy]
        rfl
      rcases List.mem_cons.mp hx with rfl | hx2
      · have hym : y ∈ b :: t2 := by
          obtain ⟨hne, he⟩ := List.mem_getLast?_eq_getLast (l := b :: t2) (x := y) hy'
          rw [he]
          exact List.getLast_mem hne
        exact (List.sorted_cons.mp hs).1 y hym
      · exact ih (List.sorted_cons.mp hs).2 x hx2 y hy'

/-- The first element of the reversed ascending sort of a list is its
greatest element (and exists exactly when the list is non-empty): the
JavaScript `sort().reverse()[0]` idiom of the source. -/
theorem head_reverse_sort_greatest (cands : List JStr) :
    (((List.insertionSort lexLe cands).reverse).head? = none ↔ cands = [])
    ∧ ∀ p, ((List.insertionSort lexLe cands).reverse).head? = some p →
        (p ∈ cands ∧ ∀ f ∈ cands, lexLe f p) := by
  have hperm : List.Perm (List.insertionSort lexLe cands) cands := List.perm_insertionSort lexLe cands
  constructor
  · rw [List.head?_reverse]
    constructor
    · intro h
      have hnil : List.insertionSort lexLe cands = [] := by
        cases hsort : List.insertionSort lexLe cands with
        | nil => rfl
        | cons a t =>
          rw [hsort] at h
          simp [List.getLast?_eq_none_iff] at h
      rw [hnil] at hperm
      exact (List.Perm.symm hperm).eq_nil
    · intro h
      subst h
      rfl
  · intro p hp
    rw [List.head?_reverse] at hp
    have hmem : p ∈ List.insertionSort lexLe cands := by
      obtain ⟨hne, he⟩ := List.mem_getLast?_eq_getLast (x := p) hp
      rw [he]
      exact List.getLast_mem hne
    refine ⟨hperm.mem_iff.mp hmem, ?_⟩
    intro f hf
    exact sorted_lexLe_getLast? _ (List.sorted_insertionSort lexLe cands)
      f (hperm.mem_iff.mpr hf) p hp

/-- C7: when the current file name matches the snapshot pattern,
findPreviousFeedFile returns none exactly when no other sibling matches the
anchored snapshot pattern, and otherwise returns the lexicographically
greatest such sibling; in particular, with siblings
prod_feed_20250101_000000.csv and prod_feed_20250102_000000.csv and the
latter current it returns the former, and with only the current file present
it returns none. -/
theorem claim7_find_previous :
    (∀ (dirFiles : List JStr) (currentFileName : JStr),
      containsFeedPattern currentFileName = true →
      (findPreviousFeedFile dirFiles currentFileName = none ↔
        dirFiles.filter (fun f => isFeedFileName f && !(decide (f = currentFileName))) = [])
      ∧ ∀ p, findPreviousFeedFile dirFiles currentFileName = some p →
          (p ∈ dirFiles.filter (fun f => isFeedFileName f && !(decide (f = currentFileName)))
          ∧ ∀ f ∈ dirFiles.filter (fun f => isFeedFileName f && !(decide (f = currentFileName))),
              lexLe f p)) 
    ∧ findPreviousFeedFile
        ["prod_feed_20250101_000000.csv".data, "prod_feed_20250102_000000.csv".data]
        "prod_feed_20250102_000000.csv".data = some "prod_feed_20250101_000000.csv".data
    ∧ findPreviousFeedFile ["prod_feed_20250102_000000.csv".data]
        "prod_feed_20250102_000000.csv".data = none := by
  refine ⟨?_, by decide!, by decide!⟩
  intro dirFiles current hpat
  have hcand : findPreviousFeedFile dirFiles current =
      ((List.insertionSort lexLe
        (dirFiles.filter (fun f => isFeedFileName f && !(decide (f = current))))).reverse).head? := by
    unfold findPreviousFeedFile
    rw [if_neg (by simp [hpat])]
  rw [hcand]
  exact head_reverse_sort_greatest (dirFiles.filter (fun f => isFeedFileName f && !(decide (f = current))))

/-- C7 witness: the general statement applied to the spec's two-file
example, with the pattern-match hypothesis discharged concretely. -/
theorem claim7_witness :
    ("prod_feed_20250101_000000.csv".data ∈
      (["prod_feed_20250101_000000.csv".data, "prod_feed_20250102_000000.csv".data] : List JStr).filter
        (fun f => isFeedFileName f && !(decide (f = "prod_feed_20250102_000000.csv".data))))
    ∧ ∀ f ∈ (["prod_feed_20250101_000000.csv".data,
          "prod_feed_20250102_000000.csv".data] : List JStr).filter
        (fun f => isFeedFileName f && !(decide (f = "prod_feed_20250102_000000.csv".data))),
        lexLe f "prod_feed_20250101_000000.csv".data :=
  ((claim7_find_previous.1
      ["prod_feed_20250101_000000.csv".data, "prod_feed_20250102_000000.csv".data]
      "prod_feed_20250102_000000.csv".data (by decide!)).2
    "prod_feed_20250101_000000.csv".data (by decide!))

/-! ## Claim C6: header reordering -/

/-- An element occurring at most once (filter-length form) has a unique
position. -/
theorem get?_unique_of_once {α : Type} [DecidableEq α] (x : α) :
    ∀ l : List α, (l.filter (fun y => decide (y = x))).length ≤ 1 →
      ∀ i j : Nat, l.get? i = some x → l.get? j = some x → i = j := by
  intro l
  induction l with
  | nil => intro _ i j hi _; simp at hi
  | cons a t ih =>
    intro hc i j hi hj
    have hmtl : ∀ jx : Nat, t.get? jx = some x → (a = x) → False := by
      intro jx hjx ha
      have hm : x ∈ t := List.get?_mem hjx
      rw [List.filter_cons] at hc
      rw [if_pos (by simp [ha])] at hc
      rw [List.length_cons] at hc
      have h0 : (t.filter (fun y => decide (y = x))).length = 0 := by omega
      have : x ∈ t.filter (fun y => decide (y = x)) := List.mem_filter.mpr ⟨hm, by simp⟩
      rw [List.length_eq_zero.mp h0] at this
      exact List.not_mem_nil x this
    match i, j with
    | 0, 0 => rfl
    | 0, j2+1 =>
      exact absurd (hmtl j2 (by simpa using hj) (by simpa using hi)) not_false
    | i2+1, 0 =>
      exact absurd (hmtl i2 (by simpa using hi) (by simpa using hj)) not_false
    | i2+1, j2+1 =>
      have hc2 : (t.filter (fun y => decide (y = x))).length ≤ 1 := by
        rw [List.filter_cons] at hc
        by_cases hax : a = x
        · rw [if_pos (by simp [hax]), List.length_cons] at hc
          omega
        · rw [if_neg (by simp [hax])] at hc
          exact hc
      have h2 : i2 = j2 := ih hc2 i2 j2 (by simpa using hi) (by simpa using hj)
      rw [h2]

/-- Soundness of `idxOf?`: `none` means absence. -/
theorem idxOf?_eq_none_iff (x : JStr) :
    ∀ l : List JStr, idxOf? x l = none ↔ x ∉ l := by
  intro l
  induction l with
  | nil => simp [idxOf?]
  | cons y r ih =>
    unfold idxOf?
    by_cases hy : y = x
    · simp [hy]
    · simp only [if_neg hy, Option.map_eq_none', ih, List.mem_cons]
      constructor
      · intro h hc
        rcases hc with hc | hc
        · exact hy hc.symm
        · exact h hc
      · intro h hc
        exact h (Or.inr hc)

/-- Soundness of `idxOf?`: the returned position holds the element. -/
theorem idxOf?_eq_some_get? (x : JStr) :
    ∀ (l : List JStr) (i : Nat), idxOf? x l = some i → l.get? i = some x := by
  intro l
  induction l with
  | nil => intro i h; simp [idxOf?] at h
  | cons y r ih =>
    intro i h
    unfold idxOf? at h
    by_cases hy : y = x
    · rw [if_pos hy] at h
      cases h
      simpa using hy
    · rw [if_neg hy] at h
      rw [Option.map_eq_some'] at h
      obtain ⟨i2, hi2, hadd⟩ := h
      subst hadd
      simpa using ih i2 hi2

/-- A header lookup of an absent name resolves to the default. -/
theorem lookupField_of_not_mem (hs vs : List JStr) (name dflt : JStr) (h : name ∉ hs) :
    lookupField hs vs name dflt = dflt := by
  have hidx : jsIndexOf hs name = -1 := by
    unfold jsIndexOf
    rw [(idxOf?_eq_none_iff name hs).mpr h]
  unfold lookupField
  rw [hidx]
  rfl

/-- A header lookup of a name found at position `i` resolves through the
row's position `i`. -/
theorem lookupField_of_idxOf? (hs vs : List JStr) (name dflt : JStr) (i : Nat)
    (h : idxOf? name hs = some i) :
    lookupField hs vs name dflt = orDefault (vs.get? i) dflt := by
  have hidx : jsIndexOf hs name = (i : Int) := by
    unfold jsIndexOf
    rw [h]
  unfold lookupField
  rw [hidx]
  unfold jsAt
  rw [if_neg (by omega)]
  rw [Int.toNat_natCast]

/-- Mapping `getD` over `range` recovers the list. -/
theorem map_getD_range (hs : List JStr) :
    (List.range hs.length).map (fun i => hs.getD i []) = hs := by
  rw [List.ext_get?_iff]
  intro k
  rw [List.get?_map]
  by_cases hk : k < hs.length
  · rw [List.get?_range hk]
    obtain ⟨v, hv⟩ : ∃ v, hs.get? k = some v := ⟨hs.get ⟨k, hk⟩, List.get?_eq_get hk⟩
    show some (hs.getD k []) = hs.get? k
    rw [List.getD_eq_get?, hv]
    rfl
  · rw [List.get?_eq_none.mpr (by simpa using hk), List.get?_eq_none.mpr (by omega)]
    rfl

/-- Applying a permutation of the column indices permutes the header
entries. -/
theorem applyPerm_perm (p : List Nat) (hs : List JStr)
    (hp : List.Perm p (List.range hs.length)) : List.Perm (applyPerm p hs) hs := by
  unfold applyPerm
  exact (hp.map (fun i => hs.getD i [])).trans (by rw [map_getD_range])

/-- Core of the header-reordering property: a by-name field lookup is
unchanged when header and row are permuted together, provided the name
occurs at most once in the header. -/
theorem lookupField_perm (p : List Nat) (hs vs : List JStr) (name dflt : JStr)
    (hp : List.Perm p (List.range hs.length))
    (hcount : (hs.filter (fun y => decide (y = name))).length ≤ 1) :
    lookupField (applyPerm p hs) (applyPerm p vs) name dflt = lookupField hs vs name dflt := by
  have hperm2 : List.Perm (applyPerm p hs) hs := applyPerm_perm p hs hp
  by_cases hmem : name ∈ hs
  · have hne : idxOf? name hs ≠ none := fun hn => ((idxOf?_eq_none_iff _ _).mp hn) hmem
    obtain ⟨i, hi⟩ := Option.ne_none_iff_exists'.mp hne
    have hgi : hs.get? i = some name := idxOf?_eq_some_get? _ _ _ hi
    have hilen : i < hs.length := by
      by_contra hcon
      rw [List.get?_eq_none.mpr (by omega)] at hgi
      cases hgi
    have hip : i ∈ p := hp.mem_iff.mpr (List.mem_range.mpr hilen)
    obtain ⟨j, hj⟩ := List.mem_iff_get?.mp hip
    have hpj : (applyPerm p hs).get? j = some name := by
      unfold applyPerm
      rw [List.get?_map, hj, Option.map_some']
      show some (hs.getD i []) = some name
      rw [List.getD_eq_get?, hgi]
      rfl
    have hne2 : idxOf? name (applyPerm p hs) ≠ none :=
      fun hn => ((idxOf?_eq_none_iff _ _).mp hn) (List.get?_mem hpj)
    obtain ⟨j1, hj1⟩ := Option.ne_none_iff_exists'.mp hne2
    have hgj1 : (applyPerm p hs).get? j1 = some name := idxOf?_eq_some_get? _ _ _ hj1
    have hcount2 : ((applyPerm p hs).filter (fun y => decide (y = name))).length ≤ 1 := by
      rw [(hperm2.filter _).length_eq]
      exact hcount
    have hj1j : j1 = j := get?_unique_of_once name (applyPerm p hs) hcount2 j1 j hgj1 hpj
    subst hj1j
    rw [lookupField_of_idxOf? _ _ _ _ _ hi, lookupField_of_idxOf? _ _ _ _ _ hj1]
    have hvj : (applyPerm p vs).get? j1 = some (vs.getD i []) := by
      unfold applyPerm
      rw [List.get?_map, hj]
      rfl
    rw [hvj]
    by_cases hiv : i < vs.length
    · obtain ⟨v, hv⟩ : ∃ v, vs.get? i = some v := ⟨vs.get ⟨i, hiv⟩, List.get?_eq_get hiv⟩
      rw [hv]
      show orDefault (some (vs.getD i [])) dflt = orDefault (some v) dflt
      rw [List.getD_eq_get?, hv]
      rfl
    · have hnone : vs.get? i = none := List.get?_eq_none.mpr (by omega)
      rw [hnone]
      show orDefault (some (vs.getD i [])) dflt = orDefault none dflt
      rw [List.getD_eq_get?, hnone]
      rfl
  · have hmem2 : name ∉ applyPerm p hs := fun hin => hmem (hperm2.mem_iff.mp hin)
    rw [lookupField_of_not_mem _ _ _ _ hmem2, lookupField_of_not_mem _ _ _ _ hmem]

/-- C6 counterexample: with a header in which discussionid occurs twice,
swapping the two columns (a permutation of the header columns that leaves
the header line unchanged) changes the normalized output, refuting the
claim over arbitrary raw inputs. -/
theorem claim6_counterexample :
    List.Perm [1, 0] (List.range 2)
    ∧ applyPerm [1, 0] ["discussionid".data, "discussionid".data]
        = ["discussionid".data, "discussionid".data]
    ∧ rowOutput (applyPerm [1, 0] ["discussionid".data, "discussionid".data])
        (applyPerm [1, 0] ["1".data, "2".data])
      ≠ rowOutput ["discussionid".data, "discussionid".data] ["1".data, "2".data] := by
  refine ⟨by decide, by decide!, by decide!⟩

/-- C6 (amended): provided each of the six expected field names occurs at
most once in the decoded header, permuting the header columns together with
each data row's fields leaves every normalized output row unchanged: fields
are resolved by name via the decoded header, not by fixed position. -/
theorem claim6_header_permutation :
    ∀ (p : List Nat) (inputHeaders : List JStr) (rows : List (List JStr)),
      List.Perm p (List.range inputHeaders.length) →
      (∀ name ∈ expectedHeaders,
        (inputHeaders.filter (fun y => decide (y = name))).length ≤ 1) →
      rows.map (fun values => rowOutput (applyPerm p inputHeaders) (applyPerm p values))
        = rows.map (fun values => rowOutput inputHeaders values) := by
  intro p hs rows hp hcount
  apply List.map_congr_left
  intro vs _
  unfold rowOutput
  have hb : buildInputRow (applyPerm p hs) (applyPerm p vs) = buildInputRow hs vs := by
    unfold buildInputRow
    simp only [InputRow.mk.injEq]
    refine ⟨?_, ?_, ?_, ?_, ?_, ?_⟩ <;>
      exact lookupField_perm p hs vs _ _ hp (hcount _ (by simp [expectedHeaders]))
  rw [hb]

/-- C6 witness: a two-column header swap on a well-formed input, with both
hypotheses discharged concretely. -/
theorem claim6_witness :
    ([1, 0] : List Nat).Perm (List.range (["discussionid".data, "score".data] : List JStr).length)
    ∧ [["7".data, "2".data]].map
        (fun values => rowOutput (applyPerm [1, 0] ["discussionid".data, "score".data])
          (applyPerm [1, 0] values))
      = [["7".data, "2".data]].map
          (fun values => rowOutput ["discussionid".data, "score".data] values) :=
  ⟨by decide,
   claim6_header_permutation [1, 0] ["discussionid".data, "score".data] [["7".data, "2".data]]
     (by decide) (by decide)⟩

/-! ## Claim C3: codec round trip -/

/-- Splitting a separator-free string yields that single piece. -/
theorem jsSplit_no_sep (sep : Char) :
    ∀ p : JStr, sep ∉ p → jsSplit sep p = [p] := by
  intro p
  induction p with
  | nil => intro _; rfl
  | cons c r ih =>
    intro h
    have hc : ¬ c = sep := fun he => h (he ▸ List.mem_cons_self c r)
    have hr : sep ∉ r := fun hm => h (List.mem_cons_of_mem c hm)
    simp only [jsSplit]
    rw [ih hr]
    simp [hc]

/-- Splitting peels off a separator-free piece before a separator. -/
theorem jsSplit_append_sep (sep : Char) :
    ∀ p t : JStr, sep ∉ p → jsSplit sep (p ++ sep :: t) = p :: jsSplit sep t := by
  intro p
  induction p with
  | nil =>
    intro t _
    show jsSplit sep (sep :: t) = [] :: jsSplit sep t
    simp [jsSplit]
  | cons c r ih =>
    intro t h
    have hc : ¬ c = sep := fun he => h (he ▸ List.mem_cons_self c r)
    have hr : sep ∉ r := fun hm => h (List.mem_cons_of_mem c hm)
    show jsSplit sep (c :: (r ++ sep :: t)) = (c :: r) :: jsSplit sep t
    simp only [jsSplit]
    rw [ih t hr]
    simp [hc]

/-- Splitting a separator-joined text recovers the pieces when none of them
contains the separator. -/
theorem jsSplit_joinWith (sep : Char) :
    ∀ pieces : List JStr, pieces ≠ [] → (∀ q ∈ pieces, sep ∉ q) →
      jsSplit sep (joinWith sep pieces) = pieces := by
  intro pieces
  induction pieces with
  | nil => intro h _; exact absurd rfl h
  | cons x rest ih =>
    intro _ hq
    cases rest with
    | nil =>
      show jsSplit sep x = [x]
      exact jsSplit_no_sep sep x (hq x (List.mem_cons_self x []))
    | cons y rest2 =>
      show jsSplit sep (x ++ sep :: joinWith sep (y :: rest2)) = x :: (y :: rest2)
      rw [jsSplit_append_sep sep x _ (hq x (List.mem_cons_self _ _))]
      rw [ih (by simp) (fun q hq2 => hq q (List.mem_cons_of_mem x hq2))]

/-- A field with no quote and no comma is accumulated verbatim by the
scanner (outside quotes). -/
theorem parseCsvAux_plain :
    ∀ f : JStr, '"' ∉ f → ',' ∉ f →
      ∀ s cur : JStr, parseCsvAux (f ++ s) cur false = parseCsvAux s (cur ++ f) false := by
  intro f
  induction f with
  | nil => intro _ _ s cur; rw [List.append_nil]; rfl
  | cons c r ih =>
    intro hq hcm s cur
    have hc1 : ¬ c = '"' := fun he => hq (he ▸ List.mem_cons_self c r)
    have hc2 : ¬ c = ',' := fun he => hcm (he ▸ List.mem_cons_self c r)
    show parseCsvAux (c :: (r ++ s)) cur false = parseCsvAux s (cur ++ c :: r) false
    simp only [parseCsvAux]
    rw [if_neg hc1, if_neg (by simp [hc2])]
    rw [ih (fun hm => hq (List.mem_cons_of_mem c hm))
        (fun hm => hcm (List.mem_cons_of_mem c hm)) s (cur ++ [c])]
    rw [List.append_assoc]
    rfl

/-- A quote-free span is accumulated verbatim by the scanner while inside
quotes (commas included). -/
theorem parseCsvAux_quoted :
    ∀ g : JStr, '"' ∉ g →
      ∀ s cur : JStr, parseCsvAux (g ++ s) cur true = parseCsvAux s (cur ++ g) true := by
  intro g
  induction g with
  | nil => intro _ s cur; rw [List.append_nil]; rfl
  | cons c r ih =>
    intro hq s cur
    have hc1 : ¬ c = '"' := fun he => hq (he ▸ List.mem_cons_self c r)
    show parseCsvAux (c :: (r ++ s)) cur true = parseCsvAux s (cur ++ c :: r) true
    simp only [parseCsvAux]
    rw [if_neg hc1, if_neg (by simp)]
    rw [ih (fun hm => hq (List.mem_cons_of_mem c hm)) s (cur ++ [c])]
    rw [List.append_assoc]
    rfl

/-- Doubling quotes is the identity on quote-free fields. -/
theorem escapeQuotes_of_no_quote : ∀ f : JStr, '"' ∉ f → escapeQuotes f = f := by
  intro f
  induction f with
  | nil => intro _; rfl
  | cons c r ih =>
    intro h
    have hc : ¬ c = '"' := fun he => h (he ▸ List.mem_cons_self c r)
    unfold escapeQuotes
    rw [if_neg hc, ih (fun hm => h (List.mem_cons_of_mem c hm))]

/-- Scanning one encoded quote-free field from a fresh accumulator leaves
the scanner holding exactly that field. -/
theorem parseCsvAux_field (f : JStr) (hq : '"' ∉ f) (s : JStr) :
    parseCsvAux (encodeField f ++ s) [] false = parseCsvAux s f false := by
  unfold encodeField
  by_cases hnq : needsQuote f = true
  · rw [if_pos hnq]
    rw [escapeQuotes_of_no_quote f hq]
    show parseCsvAux ((f ++ ['"']) ++ s) [] true = parseCsvAux s f false
    rw [List.append_assoc]
    show parseCsvAux (f ++ '"' :: s) [] true = parseCsvAux s f false
    rw [parseCsvAux_quoted f hq ('"' :: s) []]
    rfl
  · rw [if_neg hnq]
    have hcm : ',' ∉ f := by
      intro hm
      apply hnq
      have h1 : f.contains ',' = true := List.elem_iff.mpr hm
      unfold needsQuote
      rw [h1]
      rfl
    rw [parseCsvAux_plain f hq hcm s []]
    rfl

/-- Parsing the encoding of a non-empty row of newline-free, quote-free,
trim-invariant fields recovers the row. -/
theorem parseCsvLine_toCsvLine :
    ∀ vs : List JStr, vs ≠ [] →
      (∀ f ∈ vs, '\n' ∉ f ∧ '"' ∉ f ∧ jsTrim f = f) →
      parseCsvLine (toCsvLine vs) = vs := by
  intro vs
  induction vs with
  | nil => intro h _; exact absurd rfl h
  | cons f rest ih =>
    intro _ hf
    obtain ⟨hn, hq, ht⟩ := hf f (List.mem_cons_self f rest)
    cases rest with
    | nil =>
      show parseCsvAux (joinWith ',' [encodeField f]) [] false = [f]
      show parseCsvAux (encodeField f) [] false = [f]
      rw [show encodeField f = encodeField f ++ [] from (List.append_nil _).symm]
      rw [parseCsvAux_field f hq []]
      show [jsTrim f] = [f]
      rw [ht]
    | cons g rest2 =>
      show parseCsvAux
        (encodeField f ++ ',' :: joinWith ',' ((g :: rest2).map encodeField)) [] false
        = f :: g :: rest2
      rw [parseCsvAux_field f hq _]
      show jsTrim f :: parseCsvAux (joinWith ',' ((g :: rest2).map encodeField)) [] false
          = f :: g :: rest2
      rw [ht]
      show f :: parseCsvLine (toCsvLine (g :: rest2)) = f :: g :: rest2
      rw [ih (by simp) (fun x hx => hf x (List.mem_cons_of_mem f hx))]

/-- Every character of a joined text is the separator or comes from one of
the pieces. -/
theorem mem_joinWith (sep : Char) :
    ∀ (ps : List JStr) (c : Char), c ∈ joinWith sep ps → c = sep ∨ ∃ q ∈ ps, c ∈ q := by
  intro ps
  induction ps with
  | nil => intro c hc; cases hc
  | cons x rest ih =>
    cases rest with
    | nil =>
      intro c hc
      right
      exact ⟨x, List.mem_cons_self x [], hc⟩
    | cons y r2 =>
      intro c hc
      rw [show joinWith sep (x :: y :: r2) = x ++ sep :: joinWith sep (y :: r2) from rfl] at hc
      rcases List.mem_append.mp hc with h1 | h2
      · right
        exact ⟨x, List.mem_cons_self _ _, h1⟩
      · rcases List.mem_cons.mp h2 with rfl | h3
        · left
          rfl
        · rcases ih c h3 with h4 | ⟨q, hq1, hq2⟩
          · left
            exact h4
          · right
            exact ⟨q, List.mem_cons_of_mem _ hq1, hq2⟩

/-- Characters of a quote-doubled field come from the field or are quotes. -/
theorem mem_escapeQuotes : ∀ (f : JStr) (c : Char), c ∈ escapeQuotes f → c ∈ f ∨ c = '"' := by
  intro f
  induction f with
  | nil => intro c hc; cases hc
  | cons d r ih =>
    intro c hc
    unfold escapeQuotes at hc
    by_cases hd : d = '"'
    · rw [if_pos hd] at hc
      rcases List.mem_cons.mp hc with rfl | hc2
      · right
        rfl
      · rcases List.mem_cons.mp hc2 with rfl | hc3
        · right
          rfl
        · rcases ih c hc3 with h | h
          · left
            exact List.mem_cons_of_mem d h
          · right
            exact h
    · rw [if_neg hd] at hc
      rcases List.mem_cons.mp hc with rfl | hc2
      · left
        exact List.mem_cons_self c r
      · rcases ih c hc2 with h | h
        · left
          exact List.mem_cons_of_mem d h
        · right
          exact h

/-- Characters of an encoded field come from the field or are quotes. -/
theorem mem_encodeField (f : JStr) (c : Char) : c ∈ encodeField f → c ∈ f ∨ c = '"' := by
  intro hc
  unfold encodeField at hc
  by_cases hnq : needsQuote f = true
  · rw [if_pos hnq] at hc
    rcases List.mem_cons.mp hc with rfl | hc2
    · right
      rfl
    · rcases List.mem_append.mp hc2 with h | h
      · exact mem_escapeQuotes f c h
      · right
        rwa [List.mem_singleton] at h
  · rw [if_neg hnq] at hc
    left
    exact hc

/-- An encoded row of newline-free fields contains no newline. -/
theorem toCsvLine_no_newline (vs : List JStr) (h : ∀ f ∈ vs, '\n' ∉ f) :
    '\n' ∉ toCsvLine vs := by
  intro hc
  unfold toCsvLine at hc
  rcases mem_joinWith ',' _ _ hc with h1 | ⟨q, hq1, hq2⟩
  · cases h1
  · rw [List.mem_map] at hq1
    obtain ⟨r, hrm, rfl⟩ := hq1
    rcases mem_encodeField r _ hq2 with h2 | h2
    · exact h r hrm h2
    · cases h2

/-- C3 counterexample: a field with leading whitespace (and no newline) is
not recovered, because the decoder trims every field: the round trip maps
the single-field row consisting of space-a to the row consisting of a. -/
theorem claim3_counterexample :
    decodeRows (encodeRows [[[' ', 'a']]]) ≠ [[[' ', 'a']]] := by
  decide

/-- C3 (amended): for every non-empty sequence of non-empty rows whose
fields contain no raw newline, no double-quote character, and no leading or
trailing whitespace (so that the decoder's per-field trim is the identity),
decoding the encoded text yields the original rows. -/
theorem claim3_roundtrip :
    ∀ rows : List (List JStr), rows ≠ [] →
      (∀ r ∈ rows, r ≠ [] ∧ ∀ f ∈ r, '\n' ∉ f ∧ '"' ∉ f ∧ jsTrim f = f) →
      decodeRows (encodeRows rows) = rows := by
  intro rows hne hr
  unfold decodeRows encodeRows
  rw [jsSplit_joinWith '\n' (rows.map toCsvLine) (by simpa using hne)
      (by
        intro q hq
        rw [List.mem_map] at hq
        obtain ⟨r, hrm, rfl⟩ := hq
        exact toCsvLine_no_newline r (fun f hf => ((hr r hrm).2 f hf).1))]
  rw [List.map_map]
  conv_rhs => rw [← List.map_id rows]
  apply List.map_congr_left
  intro r hrm
  exact parseCsvLine_toCsvLine r (hr r hrm).1 (fun f hf => (hr r hrm).2 f hf)

/-- C3 witness: a two-row input with a comma-containing (hence quoted)
field, with both hypotheses discharged concretely. -/
theorem claim3_witness :
    decodeRows (encodeRows [["a".data, "b,c".data], ["d".data]])
      = [["a".data, "b,c".data], ["d".data]] :=
  claim3_roundtrip [["a".data, "b,c".data], ["d".data]] (by decide) (by decide)

end MassageCsv
